import Mathlib

/-!
Verification of the PocketFlow-CPP node-graph execution engine.

This file gives a shallow embedding of the engine's core (node lifecycle,
retry controller, flow orchestrator, batch adapters, batch flow) and proves
the stated behavioural properties about it.  Each definition is translated
from the corresponding C++ source:

* `Json` models `nlohmann::json` values;
* `nodeExecGo` / `Node_exec` model `pocketflow::Node::_exec` (the retry loop,
  identical in structure to `AsyncNode::_exec_async`);
* `node_run` models `BaseNode::_run` (prep -> _exec -> post);
* `get_next_node` / `orchGo` / `Flow_orch` model `Flow::get_next_node` and
  `Flow::_orch`;
* `BatchNode_exec` models `BatchNode::_exec`; `ParallelBatchNode_exec`
  models the result assembly of `AsyncParallelBatchNode::_exec_async`;
* `AsyncNode_sync_run` models `AsyncNode::_run`;
* `BatchFlow_run` models `BatchFlow::_run`.

Exceptions are modelled with `Except String`, side effects on the shared
context by explicit state passing, and real-time sleeps by `slp` events in
an event trace.
-/

namespace PF

/-- JSON values, modelling `nlohmann::json`.  Objects are modelled as
association lists of key/value pairs (`std::map` iteration order is not
relied upon by any theorem below). -/
inductive Json where
  | null
  | bool (b : Bool)
  | num (n : Int)
  | str (s : String)
  | arr (items : List Json)
  | obj (entries : List (String × Json))

/-- Tests `json::is_null()`. -/
def Json.isNull : Json → Bool
  | .null => true
  | _ => false

/-- Tests `json::is_object()`. -/
def Json.isObject : Json → Bool
  | .obj _ => true
  | _ => false

/-- Tests `json::is_array()`. -/
def Json.isArray : Json → Bool
  | .arr _ => true
  | _ => false

/-- Association-list lookup, modelling `std::map::find` on an object's
entries (first matching key wins; `nlohmann` objects never hold a
duplicate key). -/
def lookupList : List (String × Json) → String → Option Json
  | [], _ => none
  | (k, v) :: rest, key => if k = key then some v else lookupList rest key

/-- Key lookup on a JSON value: `none` on non-objects. -/
def jsonLookup : Json → String → Option Json
  | .obj kvs, key => lookupList kvs key
  | _, _ => none

/-- `std::map` style insert-or-assign for one key, as performed for each
entry during `json::update`. -/
def objInsert (kvs : List (String × Json)) (k : String) (v : Json) :
    List (String × Json) :=
  if kvs.any (fun kv => kv.1 = k) then
    kvs.map (fun kv => if kv.1 = k then (k, v) else kv)
  else kvs ++ [(k, v)]

/-- Models `nlohmann::json::update`: every entry of `other` is written into
`base` (overwriting existing keys), after an implicit conversion of a null
`base` to the empty object.  Callers below only invoke it when `base` is
null or an object and `other` is an object, matching the guarded call sites
in the C++ sources. -/
def jsonUpdate (base other : Json) : Json :=
  match base, other with
  | .obj bs, .obj os => .obj (os.foldl (fun acc kv => objInsert acc kv.1 kv.2) bs)
  | .null, .obj os => .obj (os.foldl (fun acc kv => objInsert acc kv.1 kv.2) [])
  | b, _ => b

/-- Lower-case hex digit, as used by the serializer's `\u00XX` escapes. -/
def hexDigit (n : Nat) : Char :=
  if n < 10 then Char.ofNat (48 + n) else Char.ofNat (87 + n)

/-- Escapes one character the way `nlohmann::json::dump` does. -/
def escapeChar (c : Char) : String :=
  if c = '"' then "\\\""
  else if c = '\\' then "\\\\"
  else if c.toNat = 8 then "\\b"
  else if c.toNat = 9 then "\\t"
  else if c.toNat = 10 then "\\n"
  else if c.toNat = 12 then "\\f"
  else if c.toNat = 13 then "\\r"
  else if c.toNat < 32 then
    "\\u00" ++ String.singleton (hexDigit (c.toNat / 16)) ++
      String.singleton (hexDigit (c.toNat % 16))
  else String.singleton c

/-- Escapes a string the way `nlohmann::json::dump` does. -/
def escapeString (s : String) : String :=
  String.join (s.toList.map escapeChar)

mutual

/-- Models `nlohmann::json::dump()` (compact serialization), used by
`Flow::_orch` to turn a non-string, non-null action into a string. -/
def Json.dump : Json → String
  | .null => "null"
  | .bool true => "true"
  | .bool false => "false"
  | .num n => toString n
  | .str s => "\"" ++ escapeString s ++ "\""
  | .arr items => "[" ++ Json.dumpList items ++ "]"
  | .obj entries => "\x7b" ++ Json.dumpObj entries ++ "\x7d"

/-- Serializes array elements, comma separated. -/
def Json.dumpList : List Json → String
  | [] => ""
  | [x] => Json.dump x
  | x :: rest => Json.dump x ++ "," ++ Json.dumpList rest

/-- Serializes object entries, comma separated. -/
def Json.dumpObj : List (String × Json) → String
  | [] => ""
  | [(k, v)] => "\"" ++ escapeString k ++ "\":" ++ Json.dump v
  | (k, v) :: rest =>
      "\"" ++ escapeString k ++ "\":" ++ Json.dump v ++ "," ++ Json.dumpObj rest

end

/-! ## Retry controller (`Node::_exec`, `AsyncNode::_exec_async`) -/

/-- Observable events of one node activation: an `exec` attempt (with the
0-based attempt index, the prepared input and the outcome), a backoff sleep
(milliseconds), or a fallback invocation (with the prepared input, the
caught error and the fallback's outcome). -/
inductive Ev where
  | att (i : Nat) (item : Json) (r : Except String Json)
  | slp (ms : Nat)
  | fbk (item : Json) (e : String) (r : Except String Json)

/-- Tests whether an event is an `exec` attempt. -/
def Ev.isAtt : Ev → Bool
  | .att _ _ _ => true
  | _ => false

/-- Tests whether an event is a backoff sleep. -/
def Ev.isSlp : Ev → Bool
  | .slp _ => true
  | _ => false

/-- Tests whether an event is a fallback invocation. -/
def Ev.isFbk : Ev → Bool
  | .fbk _ _ _ => true
  | _ => false

/-- Number of `exec` attempts in a trace. -/
def attCount (tr : List Ev) : Nat := tr.countP Ev.isAtt

/-- Number of fallback invocations in a trace. -/
def fbkCount (tr : List Ev) : Nat := tr.countP Ev.isFbk

/-- Number of backoff sleeps in a trace. -/
def slpCount (tr : List Ev) : Nat := tr.countP Ev.isSlp

/-- The retry loop of `pocketflow::Node::_exec` (structurally identical to
the loop in `AsyncNode::_exec_async`), with `cur` the value of the
`cur_retry_` counter on loop entry.  The exec behaviour is an oracle `ex`
mapping the attempt index and the prepared input to an outcome; `fb` is
`exec_fallback` (which may itself fail).  After a failed attempt that is not
the last one, the loop sleeps `wait * 2 ^ (cur_retry - 1)` milliseconds when
`wait > 0` (`wait_ * (1 << (cur_retry_ - 1))` in the source); after it
increments `cur_retry_`, the sleep exponent `cur_retry_ - 1` equals the
entry value `cur`. -/
def nodeExecGo (N wait : Nat) (ex : Nat → Json → Except String Json)
    (fb : Json → String → Except String Json) (p : Json) (cur : Nat) :
    Except String Json × List Ev :=
  if cur < N then
    match ex cur p with
    | .ok v => (.ok v, [.att cur p (.ok v)])
    | .error e =>
      if cur + 1 ≥ N then
        (fb p e, [.att cur p (.error e), .fbk p e (fb p e)])
      else
        let rest := nodeExecGo N wait ex fb p (cur + 1)
        (rest.1, .att cur p (.error e) ::
          ((if wait > 0 then [.slp (wait * 2 ^ cur)] else []) ++ rest.2))
  else (.error "Unexpected state in retry logic", [])
termination_by N - cur

/-- `pocketflow::Node::_exec`: the retry loop entered with `cur_retry_ = 0`. -/
def Node_exec (N wait : Nat) (ex : Nat → Json → Except String Json)
    (fb : Json → String → Except String Json) (p : Json) :
    Except String Json × List Ev :=
  nodeExecGo N wait ex fb p 0

/-- The default `Node::exec_fallback`: re-raise the caught exception. -/
def exec_fallback (_prep_res : Json) (exc : String) : Except String Json :=
  .error exc

/-- `BaseNode::_run` as inherited by `Node` (prep, then the retry-wrapped
exec, then post), with the node's `_exec` being the retry loop above.
`prep` reads the shared context; `post` may mutate it and returns the
routing action.  Any error from `prep` or `post` propagates unchanged; the
second component is the event trace of the compute phase. -/
def node_run {σ : Type} (N wait : Nat) (ex : Nat → Json → Except String Json)
    (fb : Json → String → Except String Json)
    (prep : σ → Except String Json)
    (post : σ → Json → Json → Except String (Json × σ)) (s : σ) :
    Except String (Json × σ) × List Ev :=
  match prep s with
  | .error e => (.error e, [])
  | .ok p =>
    let r := Node_exec N wait ex fb p
    match r.1 with
    | .error e => (.error e, r.2)
    | .ok v => (post s p v, r.2)

/-- `AsyncNode::_run`: the synchronous entry point on an async-only node
throws `std::runtime_error` immediately, before any lifecycle phase runs;
the node's configuration and lifecycle oracles are never consulted and the
event trace is empty.  (`BaseNode::run` just forwards to `_run`.) -/
def AsyncNode_sync_run {σ : Type} (_N _wait : Nat)
    (_ex : Nat → Json → Except String Json)
    (_fb : Json → String → Except String Json)
    (_prep : σ → Except String Json)
    (_post : σ → Json → Json → Except String (Json × σ)) (_s : σ) :
    Except String (Json × σ) × List Ev :=
  (.error "AsyncNode requires async execution - use run_async() instead of run()", [])

/-! ## Batch adapters (`BatchNode::_exec`, `AsyncParallelBatchNode::_exec_async`) -/

/-- The sequential per-item loop of `BatchNode::_exec` (and of
`AsyncBatchNode::_exec_async`): each item is passed through the
retry-wrapped exec; an error thrown for one item propagates and aborts the
batch.  Event traces of the items are concatenated in processing order. -/
def batchSeqGo (N wait : Nat) (ex : Nat → Json → Except String Json)
    (fb : Json → String → Except String Json) :
    List Json → Except String (List Json) × List Ev
  | [] => (.ok [], [])
  | x :: rest =>
    let r := Node_exec N wait ex fb x
    match r.1 with
    | .error e => (.error e, r.2)
    | .ok v =>
      let rr := batchSeqGo N wait ex fb rest
      (rr.1.map (fun vs => v :: vs), r.2 ++ rr.2)

/-- `BatchNode::_exec`: an array input is processed item by item through
`Node::_exec`, results pushed in input order; a non-array input is treated
as a single-item batch. -/
def BatchNode_exec (N wait : Nat) (ex : Nat → Json → Except String Json)
    (fb : Json → String → Except String Json) (items : Json) :
    Except String Json × List Ev :=
  match items with
  | .arr xs =>
    let r := batchSeqGo N wait ex fb xs
    (r.1.map Json.arr, r.2)
  | other =>
    let r := Node_exec N wait ex fb other
    (r.1.map (fun v => Json.arr [v]), r.2)

/-- The fan-in of `AsyncParallelBatchNode::_exec_async`: the futures are
consumed with `get()` in original input order, so the first failing item in
input order propagates its error. -/
def collectGo : List (Except String Json) → Except String (List Json)
  | [] => .ok []
  | r :: rest =>
    match r with
    | .error e => .error e
    | .ok v => (collectGo rest).map (fun vs => v :: vs)

/-- `AsyncParallelBatchNode::_exec_async`, value level: one retry-wrapped
task is launched per item and results are assembled by future index, i.e.
in original input order.  Each task's value is that of the deterministic
retry loop on its own item (the exec oracle is a pure function of attempt
index and item), so the assembled value does not depend on the real-time
completion order, which is therefore not part of the model. -/
def ParallelBatchNode_exec (N wait : Nat) (ex : Nat → Json → Except String Json)
    (fb : Json → String → Except String Json) (items : Json) :
    Except String Json :=
  match items with
  | .arr xs =>
    (collectGo (xs.map (fun x => (Node_exec N wait ex fb x).1))).map Json.arr
  | other =>
    ((Node_exec N wait ex fb other).1).map (fun v => Json.arr [v])

/-! ## Flow orchestrator (`Flow::get_next_node`, `Flow::_orch`) -/

/-- The action-to-string conversion inside `Flow::_orch`: a string action is
used as is, a null action becomes `"default"`, anything else is
serialized with `dump()`. -/
def actionToString (action : Json) : String :=
  match action with
  | .str s => s
  | .null => "default"
  | other => other.dump

/-- `Flow::get_next_node`: look the action up in the current node's
successor map; when absent and the action is not `"default"`, look up the
literal `"default"`; when both lookups fail (or the current node is null)
the flow terminates (`nullptr`).  Nodes are addressed by `Nat` ids and the
successor maps by `succ`. -/
def get_next_node (succ : Nat → String → Option Nat) (curr : Option Nat)
    (action : String) : Option Nat :=
  match curr with
  | none => none
  | some c =>
    match succ c action with
    | some nxt => some nxt
    | none => if action = "default" then none else succ c "default"

/-- The parameter combination at the top of each `Flow::_orch` iteration:
`combined_params` starts as a copy of the flow's `params_`; when the
orchestration-call `params` is a non-null object it is merged in with
`json::update` (which converts a null target to an empty object and throws
`type_error.312` on a non-object target). -/
def combineParams (flowP orchP : Json) : Except String Json :=
  if orchP.isNull then .ok flowP
  else if orchP.isObject then
    match flowP with
    | .obj bs => .ok (jsonUpdate (.obj bs) orchP)
    | .null => .ok (jsonUpdate .null orchP)
    | _ => .error "type_error.312 cannot use update() with this type"
  else .ok flowP

/-- The parameter bag the current node holds when it is run:
`set_params(combined_params)` is called exactly when the combined bag is a
(non-null) object, otherwise the node keeps its previous bag. -/
def seenParams (cp : Json) (pmap : Nat → Json) (n : Nat) : Json :=
  if cp.isObject then cp else pmap n

/-- One recorded node activation of an orchestration: the node id, the
parameter bag it held while running, and either the error it threw or the
action string derived from its returned action. -/
structure Act where
  node : Nat
  seen : Json
  res : Except String String

/-- How an orchestration loop ended: normal exit (with the final parameter
assignment, shared context and `last_action`), fuel exhaustion of the
step-indexed model, or an exception propagating out of the loop. -/
inductive OrchOut (σ : Type) where
  | out (pmap : Nat → Json) (s : σ) (last : Json)
  | more
  | err (e : String)

/-- The `while (current)` loop of `Flow::_orch`, step-indexed by `fuel`
(the C++ loop has no step limit; every theorem below is stated for runs the
fuel suffices for).  `runNode` abstracts `node_copy->_run(shared)`: it maps
the node id, the node's current parameter bag and the shared context to
either a thrown error or the mutated context and returned action.  The loop
combines parameters, assigns them to the current node, runs it, converts
the action, resolves the successor with `get_next_node`, and returns
`last_action` when no successor resolves. -/
def orchGo {σ : Type} (succ : Nat → String → Option Nat)
    (runNode : Nat → Json → σ → Except String (σ × Json))
    (flowP orchP : Json) :
    Nat → Option Nat → (Nat → Json) → σ → Json → List Act × OrchOut σ
  | _, none, pmap, s, last => ([], .out pmap s last)
  | 0, some _, _, _, _ => ([], .more)
  | fuel + 1, some n, pmap, s, _ =>
    match combineParams flowP orchP with
    | .error e => ([], .err e)
    | .ok cp =>
      let seen := seenParams cp pmap n
      let pmap' := fun m => if m = n then seen else pmap m
      match runNode n seen s with
      | .error e => ([⟨n, seen, .error e⟩], .err e)
      | .ok (s', a) =>
        let astr := actionToString a
        let nxt := get_next_node succ (some n) astr
        let rest := orchGo succ runNode flowP orchP fuel nxt pmap' s' a
        (⟨n, seen, .ok astr⟩ :: rest.1, rest.2)

/-- `Flow::_orch`: when the start node is null the orchestration returns
null immediately; otherwise the loop starts at the start node with
`last_action` initialized to null. -/
def Flow_orch {σ : Type} (succ : Nat → String → Option Nat)
    (runNode : Nat → Json → σ → Except String (σ × Json))
    (flowP orchP : Json) (fuel : Nat) (start : Option Nat)
    (pmap : Nat → Json) (s : σ) : List Act × OrchOut σ :=
  orchGo succ runNode flowP orchP fuel start pmap s Json.null

/-! ## Batch flow (`BatchFlow::_run`) -/

/-- The per-pass parameter combination in `BatchFlow::_run`: a copy of the
flow's `params_`, converted to an empty object when null, then updated with
the batch parameter set — but only when that set is an object (`update`
throws on a non-object target). -/
def batchCombine (flowP bp : Json) : Except String Json :=
  if bp.isObject then
    match (if flowP.isNull then Json.obj [] else flowP) with
    | .obj bs => .ok (jsonUpdate (.obj bs) bp)
    | _ => .error "type_error.312 cannot use update() with this type"
  else .ok flowP

/-- The batch loop of `BatchFlow::_run`: one full orchestration pass per
parameter set, sequentially; orchestration results are discarded, node
parameter assignments and context mutations persist into the next pass.
`none` marks a pass the fuel did not suffice for. -/
def batchFlowGo {σ : Type} (succ : Nat → String → Option Nat)
    (runNode : Nat → Json → σ → Except String (σ × Json))
    (flowP : Json) (fuel : Nat) (start : Option Nat) :
    List Json → (Nat → Json) → σ →
    List Act × Option (Except String ((Nat → Json) × σ))
  | [], pmap, s => ([], some (.ok (pmap, s)))
  | bp :: rest, pmap, s =>
    match batchCombine flowP bp with
    | .error e => ([], some (.error e))
    | .ok cp =>
      match orchGo succ runNode flowP cp fuel start pmap s Json.null with
      | (tr, .more) => (tr, none)
      | (tr, .err e) => (tr, some (.error e))
      | (tr, .out pmap' s' _) =>
        let r := batchFlowGo succ runNode flowP fuel start rest pmap' s'
        (tr ++ r.1, r.2)

/-- `BatchFlow::_run`: run `prep`; when its result is an array, run one
orchestration pass per entry with the combined parameters; finally run
`post(shared, prep_res, json::object())` and return its result.  When the
prep result is not an array the batch loop body never runs.  The first
component collects every node activation of every pass. -/
def BatchFlow_run {σ : Type} (succ : Nat → String → Option Nat)
    (runNode : Nat → Json → σ → Except String (σ × Json))
    (flowP : Json) (prep : σ → Except String Json)
    (post : σ → Json → Json → Except String (Json × σ))
    (fuel : Nat) (start : Option Nat) (pmap : Nat → Json) (s : σ) :
    List Act × Option (Except String (Json × σ)) :=
  match prep s with
  | .error e => ([], some (.error e))
  | .ok prepRes =>
    match prepRes with
    | .arr batches =>
      match batchFlowGo succ runNode flowP fuel start batches pmap s with
      | (tr, none) => (tr, none)
      | (tr, some (.error e)) => (tr, some (.error e))
      | (tr, some (.ok (_, s'))) => (tr, some (post s' (.arr batches) (Json.obj [])))
    | other => ([], some (post s other (Json.obj [])))

/-! ## Trace shape of the retry loop -/

/-- The backoff sleep emitted after the failed attempt with 0-based index
`c` (1-based index `c + 1`): `wait * 2 ^ c` milliseconds when `wait > 0`,
nothing otherwise. -/
def sleepOpt (wait c : Nat) : List Ev :=
  if wait > 0 then [Ev.slp (wait * 2 ^ c)] else []

/-- The events of `k` consecutive failed, non-final attempts starting at
attempt index `c`: each failed attempt is followed by its backoff sleep. -/
def failEvs (wait : Nat) (p : Json) (er : Nat → String) : Nat → Nat → List Ev
  | _, 0 => []
  | c, k + 1 =>
    .att c p (.error (er c)) :: (sleepOpt wait c ++ failEvs wait p er (c + 1) k)

/-- Tests whether an orchestration outcome is a normal loop exit. -/
def OrchOut.isOut {σ : Type} : OrchOut σ → Bool
  | .out _ _ _ => true
  | _ => false

/-- Relation between two consecutive recorded activations of one
orchestration: the earlier node returned some action string and
`get_next_node` resolved that string to the later node. -/
def stepOk (succ : Nat → String → Option Nat) (x y : Act) : Prop :=
  ∃ a, x.res = .ok a ∧ get_next_node succ (some x.node) a = some y.node

theorem nodeExecGo_succ_shape (N wait : Nat) (ex : Nat → Json → Except String Json)
    (fb : Json → String → Except String Json) (p : Json) (er : Nat → String)
    (v : Json) :
    ∀ k c, c + k < N →
      (∀ i, i < k → ex (c + i) p = .error (er (c + i))) →
      ex (c + k) p = .ok v →
      nodeExecGo N wait ex fb p c =
        (.ok v, failEvs wait p er c k ++ [.att (c + k) p (.ok v)]) := by
  intro k
  induction k with
  | zero =>
    intro c hlt _ hok
    simp only [Nat.add_zero] at hlt hok
    rw [nodeExecGo, if_pos hlt, hok]
    simp [failEvs]
  | succ k ih =>
    intro c hlt hfail hok
    have hc : c < N := by omega
    have he : ex c p = .error (er c) := by
      have h0 := hfail 0 (by omega)
      simpa using h0
    have hnotlast : ¬ c + 1 ≥ N := by omega
    rw [nodeExecGo, if_pos hc, he]
    dsimp only
    rw [if_neg hnotlast]
    have hfail' : ∀ i, i < k → ex (c + 1 + i) p = .error (er (c + 1 + i)) := by
      intro i hi
      have := hfail (i + 1) (by omega)
      have harith : c + (i + 1) = c + 1 + i := by omega
      rw [harith] at this
      exact this
    have hok' : ex (c + 1 + k) p = .ok v := by
      have harith : c + 1 + k = c + (k + 1) := by omega
      rw [harith]
      exact hok
    rw [ih (c + 1) (by omega) hfail' hok']
    have harith : c + 1 + k = c + (k + 1) := by omega
    simp [failEvs, sleepOpt, harith]

theorem nodeExecGo_fail_shape (N wait : Nat) (ex : Nat → Json → Except String Json)
    (fb : Json → String → Except String Json) (p : Json) (er : Nat → String) :
    ∀ d c, c + d + 1 = N →
      (∀ i, c ≤ i → i < N → ex i p = .error (er i)) →
      nodeExecGo N wait ex fb p c =
        (fb p (er (N - 1)),
          failEvs wait p er c d ++
            [.att (N - 1) p (.error (er (N - 1))),
             .fbk p (er (N - 1)) (fb p (er (N - 1)))]) := by
  intro d
  induction d with
  | zero =>
    intro c hN hfail
    have hc : c < N := by omega
    have hcN : c = N - 1 := by omega
    have he : ex c p = .error (er c) := hfail c (le_refl c) hc
    have hlast : c + 1 ≥ N := by omega
    rw [nodeExecGo, if_pos hc, he]
    dsimp only
    rw [if_pos hlast, hcN]
    simp [failEvs]
  | succ d ih =>
    intro c hN hfail
    have hc : c < N := by omega
    have he : ex c p = .error (er c) := hfail c (le_refl c) hc
    have hnotlast : ¬ c + 1 ≥ N := by omega
    rw [nodeExecGo, if_pos hc, he]
    dsimp only
    rw [if_neg hnotlast]
    rw [ih (c + 1) (by omega) (fun i hi hiN => hfail i (by omega) hiN)]
    simp [failEvs, sleepOpt]

theorem attCount_sleepOpt (wait c : Nat) : attCount (sleepOpt wait c) = 0 := by
  unfold sleepOpt attCount
  split <;> simp [Ev.isAtt]

theorem fbkCount_sleepOpt (wait c : Nat) : fbkCount (sleepOpt wait c) = 0 := by
  unfold sleepOpt fbkCount
  split <;> simp [Ev.isFbk]

theorem attCount_failEvs (wait : Nat) (p : Json) (er : Nat → String) :
    ∀ k c, attCount (failEvs wait p er c k) = k := by
  intro k
  induction k with
  | zero => intro c; simp [failEvs, attCount]
  | succ k ih =>
    intro c
    have hs := attCount_sleepOpt wait c
    have ihh := ih (c + 1)
    unfold attCount at hs ihh ⊢
    simp only [failEvs, List.countP_cons, List.countP_append, hs, ihh]
    simp [Ev.isAtt]

theorem fbkCount_failEvs (wait : Nat) (p : Json) (er : Nat → String) :
    ∀ k c, fbkCount (failEvs wait p er c k) = 0 := by
  intro k
  induction k with
  | zero => intro c; simp [failEvs, fbkCount]
  | succ k ih =>
    intro c
    have hs := fbkCount_sleepOpt wait c
    have ihh := ih (c + 1)
    unfold fbkCount at hs ihh ⊢
    simp only [failEvs, List.countP_cons, List.countP_append, hs, ihh]
    simp [Ev.isFbk]

theorem fbkFilter_failEvs (wait : Nat) (p : Json) (er : Nat → String) :
    ∀ k c, (failEvs wait p er c k).filter Ev.isFbk = [] := by
  intro k
  induction k with
  | zero => intro c; simp [failEvs]
  | succ k ih =>
    intro c
    simp [failEvs, List.filter_append, Ev.isFbk, ih (c + 1), sleepOpt]

theorem slpFilter_failEvs (wait : Nat) (p : Json) (er : Nat → String) :
    ∀ k c, (failEvs wait p er c k).filter Ev.isSlp =
      if wait > 0 then (List.range' c k).map (fun i => Ev.slp (wait * 2 ^ i)) else [] := by
  intro k
  induction k with
  | zero => intro c; simp [failEvs, List.range']
  | succ k ih =>
    intro c
    by_cases hw : 0 < wait
    · simp [failEvs, sleepOpt, List.filter_cons, List.filter_append, Ev.isSlp,
        ih (c + 1), hw, List.range']
    · simp [failEvs, sleepOpt, List.filter_cons, List.filter_append, Ev.isSlp,
        ih (c + 1), hw]

/-! ## Claims about the retry controller -/

/-- C1: for a node with `maxAttempts = N ≥ 1` whose exec fails on each of
the first `k < N` attempts and succeeds on attempt `k + 1`, `run` succeeds
— the successful exec result is passed to `post` and `post`'s action is
returned — exec is invoked exactly `k + 1` times, and the fallback is never
invoked. -/
theorem c1_retry_then_success {σ : Type} (N wait k : Nat)
    (ex : Nat → Json → Except String Json)
    (fb : Json → String → Except String Json)
    (prep : σ → Except String Json)
    (post : σ → Json → Json → Except String (Json × σ))
    (s : σ) (p v a : Json) (s' : σ) (er : Nat → String)
    (hk : k < N)
    (hfail : ∀ i, i < k → ex i p = .error (er i))
    (hok : ex k p = .ok v)
    (hprep : prep s = .ok p)
    (hpost : post s p v = .ok (a, s')) :
    node_run N wait ex fb prep post s = (.ok (a, s'), (Node_exec N wait ex fb p).2) ∧
    attCount (Node_exec N wait ex fb p).2 = k + 1 ∧
    fbkCount (Node_exec N wait ex fb p).2 = 0 := by
  have hshape := nodeExecGo_succ_shape N wait ex fb p er v k 0 (by omega)
    (by intro i hi; simpa using hfail i hi) (by simpa using hok)
  refine ⟨?_, ?_, ?_⟩
  · unfold node_run Node_exec
    rw [hprep]
    dsimp only
    rw [hshape]
    dsimp only
    rw [hpost]
  · unfold Node_exec
    rw [hshape]
    have h1 := attCount_failEvs wait p er k 0
    unfold attCount at h1 ⊢
    simp [List.countP_append, h1, Ev.isAtt]
  · unfold Node_exec
    rw [hshape]
    have h1 := fbkCount_failEvs wait p er k 0
    unfold fbkCount at h1 ⊢
    simp [List.countP_append, h1, Ev.isFbk]

/-- Witness for C1: with `maxAttempts = 3`, an exec failing on attempts 1
and 2 and succeeding on attempt 3, the run returns post's action on the
exec value and made exactly 3 attempts with no fallback. -/
theorem c1_retry_then_success_witness :
    (node_run (σ := Unit) 3 5
        (fun i _ => if i < 2 then .error "boom" else .ok (.num 7))
        exec_fallback (fun _ => .ok .null)
        (fun u _ r => .ok (r, u)) ()).1 = .ok (Json.num 7, ()) ∧
    attCount (Node_exec 3 5
        (fun i _ => if i < 2 then .error "boom" else .ok (.num 7))
        exec_fallback .null).2 = 3 := by
  have h := c1_retry_then_success (σ := Unit) 3 5 2
    (fun i _ => if i < 2 then .error "boom" else .ok (.num 7))
    exec_fallback (fun _ => .ok .null) (fun u _ r => .ok (r, u))
    () .null (.num 7) (.num 7) () (fun _ => "boom")
    (by omega)
    (by intro i hi; simp [hi])
    (by simp)
    (by simp)
    (by simp)
  exact ⟨by rw [h.1], h.2.1⟩

/-- C2: for a node with `maxAttempts = N ≥ 1` whose exec fails on every
attempt, exec is invoked exactly `N` times, then the fallback is invoked
exactly once with the prepared input and the last error, nothing follows it
in the trace, the node's compute result is the fallback's result, and the
caller of `run` observes that result fed through `post` — for the default
fallback (`exec_fallback`, re-raise) the caller observes the re-raised last
error itself. -/
theorem c2_exhausted_retries_fallback {σ : Type} (N wait : Nat)
    (ex : Nat → Json → Except String Json)
    (fb : Json → String → Except String Json)
    (prep : σ → Except String Json)
    (post : σ → Json → Json → Except String (Json × σ))
    (s : σ) (p : Json) (er : Nat → String)
    (hN : 1 ≤ N)
    (hfail : ∀ i, i < N → ex i p = .error (er i))
    (hprep : prep s = .ok p) :
    (Node_exec N wait ex fb p).1 = fb p (er (N - 1)) ∧
    attCount (Node_exec N wait ex fb p).2 = N ∧
    (Node_exec N wait ex fb p).2.filter Ev.isFbk =
      [.fbk p (er (N - 1)) (fb p (er (N - 1)))] ∧
    (Node_exec N wait ex fb p).2.getLast? =
      some (.fbk p (er (N - 1)) (fb p (er (N - 1)))) ∧
    (node_run N wait ex fb prep post s).1 =
      (match fb p (er (N - 1)) with
       | .error e => .error e
       | .ok v => post s p v) ∧
    (node_run N wait ex exec_fallback prep post s).1 = .error (er (N - 1)) := by
  have hshape := nodeExecGo_fail_shape N wait ex fb p er (N - 1) 0 (by omega)
    (fun i _ hiN => hfail i hiN)
  have hshape' := nodeExecGo_fail_shape N wait ex exec_fallback p er (N - 1) 0
    (by omega) (fun i _ hiN => hfail i hiN)
  refine ⟨?_, ?_, ?_, ?_, ?_, ?_⟩
  · unfold Node_exec
    rw [hshape]
  · unfold Node_exec
    rw [hshape]
    have h1 := attCount_failEvs wait p er (N - 1) 0
    unfold attCount at h1 ⊢
    simp [List.countP_append, h1, Ev.isAtt]
    omega
  · unfold Node_exec
    rw [hshape]
    simp [List.filter_append, fbkFilter_failEvs wait p er (N - 1) 0, Ev.isFbk]
  · unfold Node_exec
    rw [hshape]
    have hsplit : failEvs wait p er 0 (N - 1) ++
        [Ev.att (N - 1) p (.error (er (N - 1))),
         Ev.fbk p (er (N - 1)) (fb p (er (N - 1)))] =
        (failEvs wait p er 0 (N - 1) ++ [Ev.att (N - 1) p (.error (er (N - 1)))]) ++
          [Ev.fbk p (er (N - 1)) (fb p (er (N - 1)))] := by
      simp
    rw [hsplit, List.getLast?_concat]
  · unfold node_run Node_exec
    rw [hprep]
    dsimp only
    rw [hshape]
    dsimp only
    cases hfb : fb p (er (N - 1)) <;> simp [hfb]
  · unfold node_run Node_exec
    rw [hprep]
    dsimp only
    rw [hshape']
    dsimp only
    rfl

/-- Witness for C2: with `maxAttempts = 2` and an always-failing exec, the
compute result is the fallback's value, there were exactly 2 attempts and
one trailing fallback call, and with the default fallback the caller of
`run` observes the re-raised last error. -/
theorem c2_exhausted_retries_fallback_witness :
    (Node_exec 2 0 (fun i _ => .error (toString i))
        (fun _ _ => .ok (.num 9)) .null).1 = .ok (Json.num 9) ∧
    attCount (Node_exec 2 0 (fun i _ => .error (toString i))
        (fun _ _ => .ok (.num 9)) .null).2 = 2 ∧
    (node_run (σ := Unit) 2 0 (fun i _ => .error (toString i))
        exec_fallback (fun _ => .ok .null)
        (fun u _ r => .ok (r, u)) ()).1 = .error "1" := by
  have h := c2_exhausted_retries_fallback (σ := Unit) 2 0
    (fun i _ => .error (toString i)) (fun _ _ => .ok (.num 9))
    (fun _ => .ok .null) (fun u _ r => .ok (r, u)) () .null
    (fun i => toString i) (by omega)
    (by intro i _; rfl)
    (by rfl)
  have h' := c2_exhausted_retries_fallback (σ := Unit) 2 0
    (fun i _ => .error (toString i)) exec_fallback
    (fun _ => .ok .null) (fun u _ r => .ok (r, u)) () .null
    (fun i => toString i) (by omega)
    (by intro i _; rfl)
    (by rfl)
  exact ⟨h.1, h.2.1, h'.2.2.2.2.2⟩

/-- C9: the full backoff schedule.  In a run whose first `k` attempts fail
and whose attempt `k + 1` succeeds, the trace interleaves each failed
attempt `a = i + 1` (0-based index `i`) with a single sleep of exactly
`wait * 2 ^ (a - 1)` milliseconds when `wait > 0` and with no sleep when
`wait = 0` (`failEvs` places `sleepOpt wait i` directly after failed
attempt `i`); the sleep events are exactly
`wait * 2 ^ 0, …, wait * 2 ^ (k - 1)` in order.  When every attempt fails,
the final failed attempt is followed directly by the fallback with no sleep
in between, so only `N - 1` sleeps occur. -/
theorem c9_backoff_schedule (N wait k : Nat)
    (ex : Nat → Json → Except String Json)
    (fb : Json → String → Except String Json)
    (p v : Json) (er : Nat → String) :
    (k < N → (∀ i, i < k → ex i p = .error (er i)) → ex k p = .ok v →
      (Node_exec N wait ex fb p).2 =
        failEvs wait p er 0 k ++ [.att k p (.ok v)] ∧
      (Node_exec N wait ex fb p).2.filter Ev.isSlp =
        (if wait > 0 then (List.range k).map (fun i => Ev.slp (wait * 2 ^ i))
         else [])) ∧
    (1 ≤ N → (∀ i, i < N → ex i p = .error (er i)) →
      (Node_exec N wait ex fb p).2 =
        failEvs wait p er 0 (N - 1) ++
          [.att (N - 1) p (.error (er (N - 1))),
           .fbk p (er (N - 1)) (fb p (er (N - 1)))] ∧
      (Node_exec N wait ex fb p).2.filter Ev.isSlp =
        (if wait > 0 then
          (List.range (N - 1)).map (fun i => Ev.slp (wait * 2 ^ i))
         else [])) := by
  constructor
  · intro hk hfail hok
    have hshape := nodeExecGo_succ_shape N wait ex fb p er v k 0 (by omega)
      (by intro i hi; simpa using hfail i hi) (by simpa using hok)
    have htr : (Node_exec N wait ex fb p).2 =
        failEvs wait p er 0 k ++ [.att k p (.ok v)] := by
      unfold Node_exec
      rw [hshape]
      simp
    refine ⟨htr, ?_⟩
    rw [htr, List.filter_append, slpFilter_failEvs wait p er k 0,
      List.range_eq_range']
    split <;> simp [Ev.isSlp]
  · intro hN hfail
    have hshape := nodeExecGo_fail_shape N wait ex fb p er (N - 1) 0 (by omega)
      (fun i _ hiN => hfail i hiN)
    have htr : (Node_exec N wait ex fb p).2 =
        failEvs wait p er 0 (N - 1) ++
          [.att (N - 1) p (.error (er (N - 1))),
           .fbk p (er (N - 1)) (fb p (er (N - 1)))] := by
      unfold Node_exec
      rw [hshape]
    refine ⟨htr, ?_⟩
    rw [htr, List.filter_append, slpFilter_failEvs wait p er (N - 1) 0,
      List.range_eq_range']
    split <;> simp [Ev.isSlp]

/-- Witness for C9: with `maxAttempts = 3`, `baseDelay = 5` and two initial
failures, the sleeps are exactly `5 * 2 ^ 0 = 5` ms then `5 * 2 ^ 1 = 10`
ms, in order. -/
theorem c9_backoff_schedule_witness :
    (Node_exec 3 5 (fun i _ => if i < 2 then .error "boom" else .ok (.num 7))
        exec_fallback .null).2.filter Ev.isSlp =
      [Ev.slp 5, Ev.slp 10] ∧
    (Node_exec 2 5 (fun _ _ => .error "boom")
        exec_fallback .null).2.filter Ev.isSlp = [Ev.slp 5] := by
  constructor
  · have h := (c9_backoff_schedule 3 5 2
      (fun i _ => if i < 2 then .error "boom" else .ok (.num 7))
      exec_fallback .null (.num 7) (fun _ => "boom")).1
      (by omega) (by intro i hi; simp [hi]) (by simp)
    rw [h.2]
    rfl
  · have h := (c9_backoff_schedule 2 5 0 (fun _ _ => .error "boom")
      exec_fallback .null .null (fun _ => "boom")).2
      (by omega) (by intro i _; rfl)
    rw [h.2]
    rfl

/-! ## Claims about the batch adapters -/

theorem batchSeqGo_ok (N wait : Nat) (ex : Nat → Json → Except String Json)
    (fb : Json → String → Except String Json) (f : Json → Json) :
    ∀ xs : List Json, (∀ x ∈ xs, (Node_exec N wait ex fb x).1 = .ok (f x)) →
      batchSeqGo N wait ex fb xs =
        (.ok (xs.map f), xs.flatMap (fun x => (Node_exec N wait ex fb x).2)) := by
  intro xs
  induction xs with
  | nil => intro _; rfl
  | cons x rest ih =>
    intro h
    have hx := h x (by simp)
    unfold batchSeqGo
    dsimp only
    rw [hx]
    dsimp only
    rw [ih (fun y hy => h y (by simp [hy]))]
    simp [Except.map]

/-- C4: for a batch node whose prep yielded an array `[i1 .. in]` and whose
retry-wrapped exec succeeds on every element, the batch exec returns an
output array of length `n` whose `j`-th entry is the retry-wrapped exec of
`i_j`, and the event trace is the concatenation, in input order, of the
elements' traces — element `j` is fully processed before element `j + 1`
starts and outputs are appended in input order. -/
theorem c4_sequential_batch (N wait : Nat)
    (ex : Nat → Json → Except String Json)
    (fb : Json → String → Except String Json)
    (xs : List Json) (f : Json → Json)
    (hv : ∀ x ∈ xs, (Node_exec N wait ex fb x).1 = .ok (f x)) :
    BatchNode_exec N wait ex fb (.arr xs) =
      (.ok (.arr (xs.map f)), xs.flatMap (fun x => (Node_exec N wait ex fb x).2)) ∧
    (xs.map f).length = xs.length := by
  constructor
  · unfold BatchNode_exec
    dsimp only
    rw [batchSeqGo_ok N wait ex fb f xs hv]
    rfl
  · simp

/-- Witness for C4: wrapping each element in a singleton array, the batch
over `[1, 2]` returns `[[1], [2]]`. -/
theorem c4_sequential_batch_witness :
    (BatchNode_exec 1 0 (fun _ x => .ok (.arr [x])) exec_fallback
        (.arr [.num 1, .num 2])).1 =
      .ok (.arr [.arr [.num 1], .arr [.num 2]]) := by
  have h := c4_sequential_batch 1 0 (fun _ x => .ok (.arr [x])) exec_fallback
    [.num 1, .num 2] (fun x => .arr [x])
    (by intro x _; simp [Node_exec, nodeExecGo])
  rw [h.1]
  rfl

theorem parCollect_eq_seq (N wait : Nat) (ex : Nat → Json → Except String Json)
    (fb : Json → String → Except String Json) :
    ∀ xs : List Json,
      collectGo (xs.map (fun x => (Node_exec N wait ex fb x).1)) =
        (batchSeqGo N wait ex fb xs).1 := by
  intro xs
  induction xs with
  | nil => rfl
  | cons x rest ih =>
    simp only [List.map_cons]
    cases h : (Node_exec N wait ex fb x).1 <;>
      simp [collectGo, batchSeqGo, h, ih]

/-- C5: for any input the parallel batch node's assembled value equals the
sequential batch node's value element-for-element — results are placed by
original input position (future index), not by completion order, and with a
per-element exec that is a pure function of attempt index and element the
two adapters agree on every input, array or not. -/
theorem c5_parallel_eq_sequential (N wait : Nat)
    (ex : Nat → Json → Except String Json)
    (fb : Json → String → Except String Json) (items : Json) :
    ParallelBatchNode_exec N wait ex fb items =
      (BatchNode_exec N wait ex fb items).1 := by
  cases items with
  | arr xs =>
    unfold ParallelBatchNode_exec BatchNode_exec
    dsimp only
    rw [parCollect_eq_seq N wait ex fb xs]
  | null => rfl
  | bool b => rfl
  | num n => rfl
  | str s => rfl
  | obj kvs => rfl

/-! ## Claims about the entry points and error propagation -/

/-- C7: invoking the purely synchronous entry point on an async-only node
throws the capability-mismatch `std::runtime_error` immediately: no
lifecycle phase runs (the trace is empty — in particular there is no exec
attempt and no fallback call, so the error is never retried), whatever the
node's retry configuration and lifecycle oracles are. -/
theorem c7_sync_run_on_async_node {σ : Type} (N wait : Nat)
    (ex : Nat → Json → Except String Json)
    (fb : Json → String → Except String Json)
    (prep : σ → Except String Json)
    (post : σ → Json → Json → Except String (Json × σ)) (s : σ) :
    AsyncNode_sync_run N wait ex fb prep post s =
      (.error "AsyncNode requires async execution - use run_async() instead of run()",
        []) ∧
    attCount (AsyncNode_sync_run N wait ex fb prep post s).2 = 0 ∧
    fbkCount (AsyncNode_sync_run N wait ex fb prep post s).2 = 0 :=
  ⟨rfl, rfl, rfl⟩

/-- C8: an error thrown by `prep` propagates unchanged from `run` with no
exec attempt and no fallback; an error thrown by `post` propagates
unchanged after a successful compute phase without touching the retry layer
(the trace is exactly the compute trace — no extra attempt, no fallback for
the post error); and inside an orchestration, a node activation that throws
aborts the loop immediately: the error surfaces unchanged and no further
node is activated. -/
theorem c8_prep_post_errors_propagate {σ : Type} (N wait : Nat)
    (ex : Nat → Json → Except String Json)
    (fb : Json → String → Except String Json)
    (prep : σ → Except String Json)
    (post : σ → Json → Json → Except String (Json × σ))
    (s : σ) (e : String) (p v : Json) :
    (prep s = .error e → node_run N wait ex fb prep post s = (.error e, [])) ∧
    (prep s = .ok p → (Node_exec N wait ex fb p).1 = .ok v →
      post s p v = .error e →
      node_run N wait ex fb prep post s = (.error e, (Node_exec N wait ex fb p).2)) ∧
    (∀ (succ : Nat → String → Option Nat)
        (runNode : Nat → Json → σ → Except String (σ × Json))
        (flowP orchP cp : Json) (fuel n : Nat) (pmap : Nat → Json) (last : Json),
      combineParams flowP orchP = .ok cp →
      runNode n (seenParams cp pmap n) s = .error e →
      orchGo succ runNode flowP orchP (fuel + 1) (some n) pmap s last =
        ([⟨n, seenParams cp pmap n, .error e⟩], .err e)) := by
  refine ⟨?_, ?_, ?_⟩
  · intro h
    unfold node_run
    rw [h]
  · intro h1 h2 h3
    unfold node_run
    rw [h1]
    dsimp only
    rw [h2]
    dsimp only
    rw [h3]
  · intro succ runNode flowP orchP cp fuel n pmap last hcomb hrun
    unfold orchGo
    rw [hcomb]
    dsimp only
    rw [hrun]

/-- Witness for C8: a prep that throws makes `run` fail with that very
error and an empty compute trace, and a post that throws after a clean
one-attempt compute surfaces its own error unchanged. -/
theorem c8_prep_post_errors_propagate_witness :
    node_run (σ := Unit) 1 0 (fun _ _ => .ok .null) exec_fallback
      (fun _ => .error "prep failed") (fun u _ r => .ok (r, u)) () =
      (.error "prep failed", []) ∧
    node_run (σ := Unit) 1 0 (fun _ _ => .ok .null) exec_fallback
      (fun _ => .ok .null) (fun _ _ _ => .error "post failed") () =
      (.error "post failed",
        (Node_exec 1 0 (fun _ _ => .ok .null) exec_fallback .null).2) ∧
    orchGo (σ := Unit) (fun _ _ => none) (fun _ _ _ => .error "node failed")
      .null .null 1 (some 0) (fun _ => .null) () .null =
      ([⟨0, .null, .error "node failed"⟩], .err "node failed") := by
  refine ⟨?_, ?_, ?_⟩
  · exact (c8_prep_post_errors_propagate (σ := Unit) 1 0 (fun _ _ => .ok .null)
      exec_fallback (fun _ => .error "prep failed") (fun u _ r => .ok (r, u))
      () "prep failed" .null .null).1 rfl
  · exact (c8_prep_post_errors_propagate (σ := Unit) 1 0 (fun _ _ => .ok .null)
      exec_fallback (fun _ => .ok .null) (fun _ _ _ => .error "post failed")
      () "post failed" .null .null).2.1 rfl
      (by simp [Node_exec, nodeExecGo]) rfl
  · exact (c8_prep_post_errors_propagate (σ := Unit) 1 0 (fun _ _ => .ok .null)
      exec_fallback (fun _ => .ok .null) (fun u _ r => .ok (r, u))
      () "node failed" .null .null).2.2 (fun _ _ => none)
      (fun _ _ _ => .error "node failed") .null .null .null 0 0
      (fun _ => .null) .null rfl rfl

/-! ## Claims about the flow orchestrator -/

theorem orchGo_head {σ : Type} (succ : Nat → String → Option Nat)
    (runNode : Nat → Json → σ → Except String (σ × Json)) (flowP orchP : Json) :
    ∀ (fuel : Nat) (cur : Option Nat) (pmap : Nat → Json) (s : σ) (last : Json)
      (x : Act) (rest : List Act),
      (orchGo succ runNode flowP orchP fuel cur pmap s last).1 = x :: rest →
      cur = some x.node := by
  intro fuel cur pmap s last x rest h
  match fuel, cur with
  | _, none => simp [orchGo] at h
  | 0, some n => simp [orchGo] at h
  | f + 1, some n =>
    simp only [orchGo] at h
    split at h
    · simp at h
    · split at h
      · simp at h
        rw [← h.1]
      · simp at h
        rw [← h.1]

theorem orchGo_out_ne_nil {σ : Type} (succ : Nat → String → Option Nat)
    (runNode : Nat → Json → σ → Except String (σ × Json)) (flowP orchP : Json) :
    ∀ (fuel n : Nat) (pmap : Nat → Json) (s : σ) (last : Json),
      (orchGo succ runNode flowP orchP fuel (some n) pmap s last).2.isOut = true →
      (orchGo succ runNode flowP orchP fuel (some n) pmap s last).1 ≠ [] := by
  intro fuel n pmap s last h
  match fuel with
  | 0 => simp [orchGo, OrchOut.isOut] at h
  | f + 1 =>
    simp only [orchGo] at h ⊢
    split at h
    · simp [OrchOut.isOut] at h
    · split at h
      · simp at h ⊢
      · simp at h ⊢

theorem orchGo_chain {σ : Type} (succ : Nat → String → Option Nat)
    (runNode : Nat → Json → σ → Except String (σ × Json)) (flowP orchP : Json) :
    ∀ (fuel : Nat) (cur : Option Nat) (pmap : Nat → Json) (s : σ) (last : Json),
      List.Chain' (stepOk succ)
        (orchGo succ runNode flowP orchP fuel cur pmap s last).1 := by
  intro fuel
  induction fuel with
  | zero =>
    intro cur pmap s last
    cases cur <;> simp [orchGo]
  | succ f ih =>
    intro cur pmap s last
    cases cur with
    | none => simp [orchGo]
    | some n =>
      simp only [orchGo]
      cases hcomb : combineParams flowP orchP with
      | error e => simp
      | ok cp =>
        dsimp only
        cases hrun : runNode n (seenParams cp pmap n) s with
        | error e => simp
        | ok pr =>
          obtain ⟨s', a⟩ := pr
          dsimp only
          cases htr : (orchGo succ runNode flowP orchP f
              (get_next_node succ (some n) (actionToString a))
              (fun m => if m = n then seenParams cp pmap n else pmap m)
              s' a).1 with
          | nil => simp
          | cons y rest =>
            rw [List.chain'_cons]
            constructor
            · have hy := orchGo_head succ runNode flowP orchP f
                (get_next_node succ (some n) (actionToString a))
                (fun m => if m = n then seenParams cp pmap n else pmap m)
                s' a y rest htr
              exact ⟨actionToString a, rfl, hy ▸ rfl⟩
            · have hc := ih (get_next_node succ (some n) (actionToString a))
                (fun m => if m = n then seenParams cp pmap n else pmap m) s' a
              rw [htr] at hc
              exact hc

theorem orchGo_last_no_successor {σ : Type} (succ : Nat → String → Option Nat)
    (runNode : Nat → Json → σ → Except String (σ × Json)) (flowP orchP : Json) :
    ∀ (fuel : Nat) (cur : Option Nat) (pmap : Nat → Json) (s : σ) (last : Json)
      (x : Act),
      (orchGo succ runNode flowP orchP fuel cur pmap s last).2.isOut = true →
      (orchGo succ runNode flowP orchP fuel cur pmap s last).1.getLast? = some x →
      ∃ a, x.res = .ok a ∧ get_next_node succ (some x.node) a = none := by
  intro fuel
  induction fuel with
  | zero =>
    intro cur pmap s last x hout hlast
    cases cur with
    | none => simp [orchGo] at hlast
    | some n => simp [orchGo, OrchOut.isOut] at hout
  | succ f ih =>
    intro cur pmap s last x hout hlast
    cases cur with
    | none => simp [orchGo] at hlast
    | some n =>
      simp only [orchGo] at hout hlast
      cases hcomb : combineParams flowP orchP with
      | error e => rw [hcomb] at hout; simp [OrchOut.isOut] at hout
      | ok cp =>
        rw [hcomb] at hout hlast
        dsimp only at hout hlast
        cases hrun : runNode n (seenParams cp pmap n) s with
        | error e => rw [hrun] at hout; simp [OrchOut.isOut] at hout
        | ok pr =>
          obtain ⟨s', a⟩ := pr
          rw [hrun] at hout hlast
          dsimp only at hout hlast
          cases hnxt : get_next_node succ (some n) (actionToString a) with
          | none =>
            rw [hnxt] at hlast
            simp [orchGo] at hlast
            rw [← hlast]
            exact ⟨actionToString a, rfl, hnxt⟩
          | some m =>
            rw [hnxt] at hout hlast
            have hne := orchGo_out_ne_nil succ runNode flowP orchP f m
              (fun mm => if mm = n then seenParams cp pmap n else pmap mm) s' a hout
            cases htr : (orchGo succ runNode flowP orchP f (some m)
                (fun mm => if mm = n then seenParams cp pmap n else pmap mm)
                s' a).1 with
            | nil => exact absurd htr hne
            | cons y rest =>
              rw [htr] at hlast
              rw [List.getLast?_cons_cons] at hlast
              have := ih (some m)
                (fun mm => if mm = n then seenParams cp pmap n else pmap mm)
                s' a x hout (by rw [htr]; exact hlast)
              exact this

/-- C3: at every orchestration step the successor is resolved from the
current node's successor map via `get_next_node` — the action string is
looked up first, then (when it is not already `"default"`) the literal
`"default"` — and a run that exits the loop normally does so immediately
after the first node whose resolution fails: consecutive trace entries are
linked by `stepOk`, and the last entry of a normally terminated run
resolves to no successor. -/
theorem c3_successor_resolution {σ : Type} (succ : Nat → String → Option Nat)
    (runNode : Nat → Json → σ → Except String (σ × Json))
    (flowP orchP : Json) (fuel : Nat) (start : Option Nat)
    (pmap : Nat → Json) (s : σ) (tr : List Act)
    (h : (Flow_orch succ runNode flowP orchP fuel start pmap s).1 = tr) :
    List.Chain' (stepOk succ) tr ∧
    ((Flow_orch succ runNode flowP orchP fuel start pmap s).2.isOut = true →
      ∀ x, tr.getLast? = some x →
        ∃ a, x.res = .ok a ∧ get_next_node succ (some x.node) a = none) ∧
    (∀ c a m, succ c a = some m → get_next_node succ (some c) a = some m) ∧
    (∀ c a, succ c a = none → a ≠ "default" →
      get_next_node succ (some c) a = succ c "default") ∧
    (∀ c, succ c "default" = none →
      get_next_node succ (some c) "default" = none) := by
  refine ⟨?_, ?_, ?_, ?_, ?_⟩
  · rw [← h]
    exact orchGo_chain succ runNode flowP orchP fuel start pmap s .null
  · intro hout x hlast
    have h' : (orchGo succ runNode flowP orchP fuel start pmap s Json.null).1 = tr := h
    exact orchGo_last_no_successor succ runNode flowP orchP fuel start pmap s
      .null x hout (by rw [h']; exact hlast)
  · intro c a m hm
    simp [get_next_node, hm]
  · intro c a hnone hne
    simp [get_next_node, hnone, hne]
  · intro c hnone
    simp [get_next_node, hnone]

/-- Witness for C3: in the two-node graph `0 -"x"-> 1`, a run that returns
action `"x"` at node 0 and `"done"` at node 1 produces a `stepOk`-chained
trace, and its last activation (node 1, action `"done"`, no successor and
no `"default"` successor) resolves to no successor — the run terminated
immediately after it. -/
theorem c3_successor_resolution_witness :
    List.Chain' (stepOk (fun n a => if n = 0 ∧ a = "x" then some 1 else none))
      [⟨0, Json.null, .ok "x"⟩, ⟨1, Json.null, .ok "done"⟩] ∧
    (∃ a, Act.res ⟨1, Json.null, .ok "done"⟩ = .ok a ∧
      get_next_node (fun n a => if n = 0 ∧ a = "x" then some 1 else none)
        (some 1) a = none) := by
  have h := c3_successor_resolution (σ := Unit)
    (fun n a => if n = 0 ∧ a = "x" then some 1 else none)
    (fun n _ _ => .ok ((), if n = 0 then Json.str "x" else Json.str "done"))
    .null .null 3 (some 0) (fun _ => .null) ()
    [⟨0, .null, .ok "x"⟩, ⟨1, .null, .ok "done"⟩] rfl
  exact ⟨h.1, h.2.1 rfl ⟨1, .null, .ok "done"⟩ rfl⟩

/-! ## Claims about parameter merging -/

theorem lookupList_append (l1 l2 : List (String × Json)) (key : String) :
    lookupList (l1 ++ l2) key =
      match lookupList l1 key with
      | some v => some v
      | none => lookupList l2 key := by
  induction l1 with
  | nil => rfl
  | cons kv rest ih =>
    obtain ⟨k, v⟩ := kv
    by_cases hk : k = key <;> simp [lookupList, hk, ih]

theorem lookupList_eq_none_of_not_any (l : List (String × Json)) (k : String)
    (h : l.any (fun kv => kv.1 = k) = false) : lookupList l k = none := by
  induction l with
  | nil => rfl
  | cons kv rest ih =>
    obtain ⟨k', v'⟩ := kv
    simp only [List.any_cons, Bool.or_eq_false_iff, decide_eq_false_iff_not] at h
    simp [lookupList, h.1, ih h.2]

theorem lookupList_eq_none_of_notin (l : List (String × Json)) (k : String)
    (h : k ∉ l.map Prod.fst) : lookupList l k = none := by
  induction l with
  | nil => rfl
  | cons kv rest ih =>
    obtain ⟨k', v'⟩ := kv
    simp only [List.map_cons, List.mem_cons, not_or] at h
    have : ¬ k' = k := fun he => h.1 (he ▸ rfl)
    simp [lookupList, this, ih h.2]

theorem lookupList_map_ne (l : List (String × Json)) (k : String) (v : Json)
    (key : String) (hne : key ≠ k) :
    lookupList (l.map (fun kv => if kv.1 = k then (k, v) else kv)) key =
      lookupList l key := by
  induction l with
  | nil => rfl
  | cons kv rest ih =>
    obtain ⟨k', v'⟩ := kv
    rw [List.map_cons]
    dsimp only
    by_cases hk' : k' = k
    · rw [if_pos hk']
      simp only [lookupList]
      rw [if_neg (fun h : k = key => hne h.symm),
        if_neg (fun h : k' = key => hne (h ▸ hk'))]
      exact ih
    · rw [if_neg hk']
      simp only [lookupList]
      by_cases hkey : k' = key
      · rw [if_pos hkey, if_pos hkey]
      · rw [if_neg hkey, if_neg hkey]
        exact ih

theorem lookupList_map_found (l : List (String × Json)) (k : String) (v : Json)
    (hany : l.any (fun kv => kv.1 = k) = true) :
    lookupList (l.map (fun kv => if kv.1 = k then (k, v) else kv)) k = some v := by
  induction l with
  | nil => simp at hany
  | cons kv rest ih =>
    obtain ⟨k', v'⟩ := kv
    rw [List.map_cons]
    dsimp only
    by_cases hk' : k' = k
    · rw [if_pos hk']
      simp [lookupList]
    · rw [if_neg hk']
      simp only [lookupList]
      rw [if_neg hk']
      apply ih
      simp only [List.any_cons, Bool.or_eq_true, decide_eq_true_eq] at hany
      cases hany with
      | inl h => exact absurd h hk'
      | inr h => exact h

theorem lookupList_objInsert (l : List (String × Json)) (k : String) (v : Json)
    (key : String) :
    lookupList (objInsert l k v) key =
      if k = key then some v else lookupList l key := by
  by_cases hk : k = key
  · subst hk
    rw [if_pos rfl]
    unfold objInsert
    by_cases hany : l.any (fun kv => kv.1 = k) = true
    · rw [if_pos hany]
      exact lookupList_map_found l k v hany
    · have hfalse : l.any (fun kv => kv.1 = k) = false := by
        cases h2 : l.any (fun kv => kv.1 = k) with
        | false => rfl
        | true => exact absurd h2 hany
      rw [if_neg hany, lookupList_append,
        lookupList_eq_none_of_not_any l k hfalse]
      simp [lookupList]
  · rw [if_neg hk]
    unfold objInsert
    split
    · exact lookupList_map_ne l k v key (fun h => hk h.symm)
    · rw [lookupList_append]
      cases hl : lookupList l key with
      | some w => rfl
      | none => simp [lookupList, hk]

theorem lookupList_updateFold :
    ∀ os : List (String × Json), (os.map Prod.fst).Nodup →
      ∀ (base : List (String × Json)) (key : String),
        lookupList (os.foldl (fun acc kv => objInsert acc kv.1 kv.2) base) key =
          match lookupList os key with
          | some v => some v
          | none => lookupList base key := by
  intro os
  induction os with
  | nil => intro _ base key; rfl
  | cons kv rest ih =>
    intro hnd base key
    obtain ⟨k0, v0⟩ := kv
    have hnd' : (k0 :: rest.map Prod.fst).Nodup := by
      rw [List.map_cons] at hnd
      exact hnd
    have hnd2 := List.nodup_cons.mp hnd'
    simp only [List.foldl_cons]
    rw [ih hnd2.2 (objInsert base k0 v0) key]
    by_cases hk : k0 = key
    · subst hk
      rw [lookupList_eq_none_of_notin rest k0 hnd2.1, lookupList_objInsert]
      simp [lookupList]
    · rw [lookupList_objInsert, if_neg hk]
      have hcons : lookupList ((k0, v0) :: rest) key = lookupList rest key := by
        simp [lookupList, hk]
      rw [hcons]

theorem orchGo_seen {σ : Type} (succ : Nat → String → Option Nat)
    (runNode : Nat → Json → σ → Except String (σ × Json))
    (flowP orchP cp : Json)
    (hcomb : combineParams flowP orchP = .ok cp) (hobj : cp.isObject = true) :
    ∀ (fuel : Nat) (cur : Option Nat) (pmap : Nat → Json) (s : σ) (last : Json),
      ∀ x ∈ (orchGo succ runNode flowP orchP fuel cur pmap s last).1,
        x.seen = cp := by
  intro fuel
  induction fuel with
  | zero =>
    intro cur pmap s last x hx
    cases cur <;> simp [orchGo] at hx
  | succ f ih =>
    intro cur pmap s last x hx
    cases cur with
    | none => simp [orchGo] at hx
    | some n =>
      simp only [orchGo, hcomb] at hx
      have hseen : seenParams cp pmap n = cp := by simp [seenParams, hobj]
      cases hrun : runNode n (seenParams cp pmap n) s with
      | error e =>
        rw [hrun] at hx
        simp at hx
        rw [hx]
        exact hseen
      | ok pr =>
        obtain ⟨s', a⟩ := pr
        rw [hrun] at hx
        simp only [List.mem_cons] at hx
        cases hx with
        | inl h1 =>
          rw [h1]
          exact hseen
        | inr h2 => exact ih _ _ s' a x h2

/-- C6 (amended): during an orchestration of a flow whose own parameter bag
is the object `bf` and whose orchestration-call parameters are the object
`bo`, every activated node holds the bag `jsonUpdate (obj bf) (obj bo)` —
the merge of the FLOW's parameters with the orchestration-call parameters —
and that merge is last-write-wins per key with the orchestration-call value
winning on every key present in both.  The node's own previous bag is
replaced by this merge and does not contribute (see the counterexample). -/
theorem c6_param_merge_flow_with_orch {σ : Type} (succ : Nat → String → Option Nat)
    (runNode : Nat → Json → σ → Except String (σ × Json))
    (bf bo : List (String × Json)) (fuel : Nat) (start : Option Nat)
    (pmap : Nat → Json) (s : σ)
    (hnd : (bo.map Prod.fst).Nodup) :
    (∀ x ∈ (Flow_orch succ runNode (.obj bf) (.obj bo) fuel start pmap s).1,
      x.seen = jsonUpdate (.obj bf) (.obj bo)) ∧
    (∀ key, jsonLookup (jsonUpdate (.obj bf) (.obj bo)) key =
      match jsonLookup (.obj bo) key with
      | some v => some v
      | none => jsonLookup (.obj bf) key) := by
  constructor
  · intro x hx
    exact orchGo_seen succ runNode (.obj bf) (.obj bo)
      (jsonUpdate (.obj bf) (.obj bo)) rfl rfl fuel start pmap s .null x hx
  · intro key
    exact lookupList_updateFold bo hnd bf key

/-- Witness for C6 (amended): with flow parameters `{"a": 1, "b": 0}` and
orchestration parameters `{"b": 2}`, the single activated node holds
`{"a": 1, "b": 2}` — the orchestration-call value wins on `"b"` and the
flow-only key `"a"` survives. -/
theorem c6_param_merge_flow_with_orch_witness :
    (∀ x ∈ (Flow_orch (σ := Unit) (fun _ _ => none)
        (fun _ _ _ => .ok ((), Json.null))
        (Json.obj [("a", .num 1), ("b", .num 0)]) (Json.obj [("b", .num 2)])
        2 (some 0) (fun _ => Json.null) ()).1,
      x.seen = jsonUpdate (Json.obj [("a", .num 1), ("b", .num 0)])
        (Json.obj [("b", .num 2)])) ∧
    jsonLookup (jsonUpdate (Json.obj [("a", .num 1), ("b", .num 0)])
      (Json.obj [("b", .num 2)])) "b" = some (Json.num 2) ∧
    jsonLookup (jsonUpdate (Json.obj [("a", .num 1), ("b", .num 0)])
      (Json.obj [("b", .num 2)])) "a" = some (Json.num 1) := by
  have h := c6_param_merge_flow_with_orch (σ := Unit) (fun _ _ => none)
    (fun _ _ _ => .ok ((), Json.null))
    [("a", .num 1), ("b", .num 0)] [("b", .num 2)]
    2 (some 0) (fun _ => Json.null) () (by simp)
  refine ⟨h.1, ?_, ?_⟩
  · rw [h.2 "b"]
    rfl
  · rw [h.2 "a"]
    rfl

/-- C6 counterexample: the claim that the bag an activated node sees is the
merge of the NODE's own parameters with the orchestration-call parameters
is false: here the node's own bag is `{"a": 1}`, the flow's bag is `{}`,
the orchestration-call bag is `{"b": 2}`; the node runs holding `{"b": 2}`,
not the claimed merge `{"a": 1, "b": 2}` — the node's previous parameters
are discarded, not merged. -/
theorem c6_param_merge_counterexample :
    (Flow_orch (σ := Unit) (fun _ _ => none)
        (fun _ _ _ => .ok ((), Json.null))
        (Json.obj []) (Json.obj [("b", .num 2)]) 2 (some 0)
        (fun _ => Json.obj [("a", .num 1)]) ()).1.map Act.seen =
      [Json.obj [("b", .num 2)]] ∧
    jsonUpdate (Json.obj [("a", .num 1)]) (Json.obj [("b", .num 2)]) =
      Json.obj [("a", .num 1), ("b", .num 2)] ∧
    Json.obj [("b", .num 2)] ≠ Json.obj [("a", .num 1), ("b", .num 2)] := by
  refine ⟨rfl, rfl, by simp⟩

/-! ## Claim about the batch flow -/

/-- C10: when a `BatchFlow`'s prep result is not a JSON array (a single
object, a string, null, …), the run performs zero orchestration passes —
no node is ever activated, so the start node never runs and the shared
context reaches `post` untouched — and the flow returns the result of its
`post` applied to the untouched context, the prep result and the empty
object as exec-result. -/
theorem c10_batchflow_non_array {σ : Type} (succ : Nat → String → Option Nat)
    (runNode : Nat → Json → σ → Except String (σ × Json))
    (flowP : Json) (prep : σ → Except String Json)
    (post : σ → Json → Json → Except String (Json × σ))
    (fuel : Nat) (start : Option Nat) (pmap : Nat → Json) (s : σ) (p : Json)
    (hprep : prep s = .ok p) (hna : p.isArray = false) :
    BatchFlow_run succ runNode flowP prep post fuel start pmap s =
      ([], some (post s p (Json.obj []))) := by
  unfold BatchFlow_run
  rw [hprep]
  dsimp only
  cases p with
  | arr xs => simp [Json.isArray] at hna
  | null => rfl
  | bool b => rfl
  | num n => rfl
  | str t => rfl
  | obj kvs => rfl

/-- Witness for C10: a prep returning the string `"x"` (not an array) makes
the batch flow skip orchestration entirely and return
`post(s, "x", json::object())`. -/
theorem c10_batchflow_non_array_witness :
    BatchFlow_run (σ := Unit) (fun _ _ => none)
      (fun _ _ _ => .ok ((), .null)) .null
      (fun _ => .ok (.str "x")) (fun _ p _ => .ok (p, ()))
      1 (some 0) (fun _ => .null) () =
      ([], some (.ok (.str "x", ()))) := by
  have h := c10_batchflow_non_array (σ := Unit) (fun _ _ => none)
    (fun _ _ _ => .ok ((), .null)) .null
    (fun _ => .ok (.str "x")) (fun _ p _ => .ok (p, ()))
    1 (some 0) (fun _ => .null) () (.str "x") rfl rfl
  rw [h]

end PF
